import Mathlib

/-!
Verification of the Mercury runtime engine contract (runtime/engine.h and
trace/mercury_trace_cmd_table_io.h).

The header declares the engine interface: the debug-flag array with its ten
named indices, `init_engine`, `call_engine`, and the six entry labels
`do_redo`, `do_fail`, `do_reset_hp_fail`, `do_reset_framevar0_fail`,
`do_succeed`, `do_not_reached`.  The implementation behind those labels is
not part of the given sources, so the engine's behaviour (registers, dual
stacks, heap + trail, choicepoint management, the dispatch loop) is modelled
here from the specification's description of the contract; the flag
constants and flag-access macros are embedded directly from engine.h.
-/

/-! ## Debug-flag constants and accessors, embedded from engine.h lines 4-28 -/

/-- engine.h line 4: program-flow debugging flag index. -/
def PROGFLAG : Nat := 0

/-- engine.h line 5: control-jump debugging flag index. -/
def GOTOFLAG : Nat := 1

/-- engine.h line 6: call-entry debugging flag index. -/
def CALLFLAG : Nat := 2

/-- engine.h line 7: heap-activity debugging flag index. -/
def HEAPFLAG : Nat := 3

/-- engine.h line 8: deterministic-stack debugging flag index. -/
def DETSTACKFLAG : Nat := 4

/-- engine.h line 9: nondeterministic-stack debugging flag index. -/
def NONDSTACKFLAG : Nat := 5

/-- engine.h line 10: finalization debugging flag index. -/
def FINALFLAG : Nat := 6

/-- engine.h line 11: memory debugging flag index. -/
def MEMFLAG : Nat := 7

/-- engine.h line 12: state/register-dump debugging flag index. -/
def SREGFLAG : Nat := 8

/-- engine.h line 13: extra verbosity/detail flag index; per the header
comment it should be the last real flag. -/
def DETAILFLAG : Nat := 9

/-- engine.h line 14: the bound of the debugflag array. -/
def MAXFLAG : Nat := 10

/-- engine.h line 17: `progdebug` reads `debugflag[PROGFLAG]`. -/
def progdebug (debugflag : Nat → Bool) : Bool := debugflag PROGFLAG

/-- engine.h line 18: `gotodebug` reads `debugflag[GOTOFLAG]`. -/
def gotodebug (debugflag : Nat → Bool) : Bool := debugflag GOTOFLAG

/-- engine.h line 19: `calldebug` reads `debugflag[CALLFLAG]`. -/
def calldebug (debugflag : Nat → Bool) : Bool := debugflag CALLFLAG

/-- engine.h line 20: `heapdebug` reads `debugflag[HEAPFLAG]`. -/
def heapdebug (debugflag : Nat → Bool) : Bool := debugflag HEAPFLAG

/-- engine.h line 21: `detstackdebug` reads `debugflag[DETSTACKFLAG]`. -/
def detstackdebug (debugflag : Nat → Bool) : Bool := debugflag DETSTACKFLAG

/-- engine.h line 22: `nondstackdebug` reads `debugflag[NONDSTACKFLAG]`. -/
def nondstackdebug (debugflag : Nat → Bool) : Bool := debugflag NONDSTACKFLAG

/-- engine.h line 23: `finaldebug` reads `debugflag[FINALFLAG]`. -/
def finaldebug (debugflag : Nat → Bool) : Bool := debugflag FINALFLAG

/-- engine.h line 24: `memdebug` reads `debugflag[MEMFLAG]`. -/
def memdebug (debugflag : Nat → Bool) : Bool := debugflag MEMFLAG

/-- engine.h line 25: `sregdebug` reads `debugflag[SREGFLAG]`. -/
def sregdebug (debugflag : Nat → Bool) : Bool := debugflag SREGFLAG

/-- engine.h line 26: `detaildebug` reads `debugflag[DETAILFLAG]`. -/
def detaildebug (debugflag : Nat → Bool) : Bool := debugflag DETAILFLAG

/-- The ten named flag indices of engine.h, in declaration order. -/
def flagIndices : List Nat :=
  [PROGFLAG, GOTOFLAG, CALLFLAG, HEAPFLAG, DETSTACKFLAG,
   NONDSTACKFLAG, FINALFLAG, MEMFLAG, SREGFLAG, DETAILFLAG]

/-! ## Engine state, modelled from the spec -/

/-- Modelled from the spec: a tagged heap cell of the term arena
(atom, compound, or unbound/bound variable); "pointers" are indices. -/
inductive Cell where
  | unbound : Cell
  | atom : Nat → Cell
  | compound : Nat → List Nat → Cell
  | ref : Nat → Cell
deriving Repr, DecidableEq

/-- Modelled from the spec: a trail entry records the address of a binding
mutated after some choicepoint's creation, together with the value that
binding held before the mutation, so the mutation can be undone. -/
structure TrailEntry where
  addr : Nat
  oldVal : Cell
deriving Repr, DecidableEq

/-- Modelled from the spec: an environment frame of the deterministic stack,
holding local variable slots live across nested single-solution calls. -/
structure Frame where
  slots : List Nat
deriving Repr, DecidableEq

/-- Modelled from the spec: a choicepoint (nondeterministic-stack frame) is a
snapshot of the heap pointer, trail pointer and frame pointer, plus the retry
code address and a remaining-alternatives marker. -/
structure Choicepoint where
  savedHp : Nat
  savedTrail : Nat
  savedFp : Nat
  retryAddr : Nat
  remainingAlts : Nat
deriving Repr, DecidableEq

/-- Modelled from the spec: the engine state.  The register file holds the
current code address `pc`, the success-continuation address `succip` and the
frame pointer `fp`; the heap pointer, trail pointer and the two stack
pointers are the lengths of the corresponding arenas (sequential bump
allocation, so a pointer is a high-water-mark index).  The heap and trail
grow at the end of their lists; the nondeterministic stack keeps the
innermost (most recent) choicepoint at the head. -/
structure Engine where
  pc : Nat
  succip : Nat
  fp : Nat
  heap : List Cell
  trail : List TrailEntry
  detStack : List Frame
  nondStack : List Choicepoint
deriving Repr, DecidableEq

/-- The register file of an engine state, as the spec lists it minus the
current code address: success continuation, frame pointer, heap pointer,
trail pointer, and the two stack pointers.  This is the state a choicepoint
snapshot must restore. -/
structure RegFile where
  succip : Nat
  fp : Nat
  hp : Nat
  tp : Nat
  detSP : Nat
  nondSP : Nat
deriving Repr, DecidableEq

/-- Read off the register file of an engine state. -/
def regFile (e : Engine) : RegFile :=
  { succip := e.succip, fp := e.fp, hp := e.heap.length,
    tp := e.trail.length, detSP := e.detStack.length,
    nondSP := e.nondStack.length }

/-- Modelled from the spec: `init_engine` allocates and default-initializes
stacks, heap, trail and registers (the debug flags, all off, are a separate
process-wide array passed to the run loop). -/
def initEngine (entry : Nat) : Engine :=
  { pc := entry, succip := 0, fp := 0, heap := [], trail := [],
    detStack := [], nondStack := [] }

/-- Modelled from the spec: pushing a choicepoint on a call site with
multiple candidate alternatives captures the heap pointer, trail pointer and
frame pointer, together with the next-alternative (retry) address and the
remaining-alternatives marker. -/
def pushChoicepoint (retry alts : Nat) (e : Engine) : Engine :=
  { e with nondStack :=
      { savedHp := e.heap.length, savedTrail := e.trail.length,
        savedFp := e.fp, retryAddr := retry, remainingAlts := alts }
        :: e.nondStack }

/-- Modelled from the spec: heap allocation is sequential bump allocation at
the heap pointer. -/
def heapAlloc (c : Cell) (e : Engine) : Engine :=
  { e with heap := e.heap ++ [c] }

/-- Modelled from the spec: a destructive binding overwrites a heap cell and
appends a trail entry recording the mutated address and its previous value.
A binding outside the allocated heap is not performed. -/
def bindCell (addr : Nat) (v : Cell) (e : Engine) : Engine :=
  match e.heap[addr]? with
  | some old =>
      { e with heap := e.heap.set addr v,
               trail := e.trail ++ [{ addr := addr, oldVal := old }] }
  | none => e

/-- Modelled from the spec: undoing one trail entry writes the recorded old
value back to the recorded address. -/
def undoEntry (heap : List Cell) (t : TrailEntry) : List Cell :=
  heap.set t.addr t.oldVal

/-- Modelled from the spec: the sequence of trail entries that failing into
the innermost choicepoint undoes, in the order they are undone — the entries
above the choicepoint's saved trail pointer, newest first (strict reverse
creation order).  Empty when no choicepoint remains. -/
def failUndoSequence (e : Engine) : List TrailEntry :=
  match e.nondStack with
  | [] => []
  | cp :: _ => (e.trail.drop cp.savedTrail).reverse

/-- Result of a failure-family continuation: either the whole computation is
exhausted (no choicepoint remains) or execution resumes in a restored state. -/
inductive FailOutcome where
  | exhausted : FailOutcome
  | resumed : Engine → FailOutcome
deriving Repr, DecidableEq

/-- Modelled from the spec: `do_fail` pops the innermost choicepoint; if none
remains the whole computation fails (exhaustion); otherwise it restores the
snapshotted registers, undoes the trail entries recorded above the
choicepoint's saved trail pointer in reverse creation order, rewinds the heap
pointer to the saved mark, and jumps to the stored retry address. -/
def doFail (e : Engine) : FailOutcome :=
  match e.nondStack with
  | [] => .exhausted
  | cp :: rest =>
      .resumed
        { pc := cp.retryAddr, succip := e.succip, fp := cp.savedFp,
          heap := ((failUndoSequence e).foldl undoEntry e.heap).take cp.savedHp,
          trail := e.trail.take cp.savedTrail,
          detStack := e.detStack,
          nondStack := rest }

/-- Modelled from the spec: `do_redo` is the explicitly requested
continuation of search for further solutions; it behaves as a fail targeted
at the most recent live choicepoint, and against an empty nondeterministic
stack it reports overall exhaustion. -/
def doRedo (e : Engine) : FailOutcome :=
  match e.nondStack with
  | [] => .exhausted
  | cp :: rest =>
      .resumed
        { pc := cp.retryAddr, succip := e.succip, fp := cp.savedFp,
          heap := ((failUndoSequence e).foldl undoEntry e.heap).take cp.savedHp,
          trail := e.trail.take cp.savedTrail,
          detStack := e.detStack,
          nondStack := rest }

/-- Modelled from the spec: `do_reset_hp_fail` performs the standard fail
restore plus an additional heap-pointer rewind, to a target below the
choicepoint's stored mark, for alternatives needing extra cleanup.  The
rewind target is supplied by the generated code taking this continuation. -/
def doResetHpFail (target : Nat) (e : Engine) : FailOutcome :=
  match doFail e with
  | .exhausted => .exhausted
  | .resumed r => .resumed { r with heap := r.heap.take target }

/-- Read frame slot 0 of the frame designated by the current frame pointer. -/
def readFrameSlot0 (e : Engine) : Option Nat :=
  (e.detStack[e.fp]?).bind fun fr => fr.slots[0]?

/-- Modelled from the spec: clear the designated frame slot (slot 0) of the
frame designated by the current frame pointer. -/
def clearFrameSlot0 (e : Engine) : Engine :=
  match e.detStack[e.fp]? with
  | some fr => { e with detStack := e.detStack.set e.fp { slots := fr.slots.set 0 0 } }
  | none => e

/-- Modelled from the spec: `do_reset_framevar0_fail` performs the standard
fail restore plus clears one designated frame slot (slot 0) before retrying,
used where the retried code path depends on that slot starting cleared. -/
def doResetFramevar0Fail (e : Engine) : FailOutcome :=
  match doFail e with
  | .exhausted => .exhausted
  | .resumed r => .resumed (clearFrameSlot0 r)

/-- Modelled from the spec: `do_succeed` denotes deterministic or
first-solution success and transfers control to the success continuation; it
performs no stack or heap rewind. -/
def doSucceed (e : Engine) : Engine :=
  { e with pc := e.succip }

/-! ## Mutations performed between choicepoint events -/

/-- Modelled from the spec: a heap/trail mutation performed by executed code
between control events — a bump allocation or a destructive binding. -/
inductive MutOp where
  | alloc : Cell → MutOp
  | mutate : Nat → Cell → MutOp
deriving Repr, DecidableEq

/-- Apply one mutation to the engine state. -/
def applyMut (e : Engine) (op : MutOp) : Engine :=
  match op with
  | .alloc c => heapAlloc c e
  | .mutate a v => bindCell a v e

/-- Apply a sequence of mutations, oldest first. -/
def applyMuts (ops : List MutOp) (e : Engine) : Engine :=
  ops.foldl applyMut e

/-! ## The dispatch loop, modelled from the spec -/

/-- Modelled from the spec: the instructions of executed code visible to the
engine contract — heap/trail/stack mutation, control transfer, choicepoint
creation, and the continuation entry labels declared in engine.h
(`do_fail`, `do_redo`, `do_succeed`, `do_reset_hp_fail`,
`do_reset_framevar0_fail`, `do_not_reached`), plus the terminal `stop`
reached through the outermost success continuation. -/
inductive Instr where
  | mkcp : Nat → Nat → Instr
  | alloc : Cell → Instr
  | mutate : Nat → Cell → Instr
  | setSuccip : Nat → Instr
  | goto : Nat → Instr
  | pushFrame : Nat → Instr
  | setSlot : Nat → Nat → Instr
  | fail : Instr
  | redo : Instr
  | succeed : Instr
  | resetHpFail : Nat → Instr
  | resetFramevar0Fail : Instr
  | stop : Instr
  | notReached : Instr
deriving Repr, DecidableEq

/-- Modelled from the spec: the terminal states of `call_engine` — overall
success, overall failure with the nondeterministic stack exhausted, or a
fatal invariant violation. -/
inductive Outcome where
  | success : Outcome
  | exhausted : Outcome
  | fatal : Outcome
deriving Repr, DecidableEq

/-- One dispatch step either continues in a new engine state or halts in a
terminal state. -/
inductive StepResult where
  | next : Engine → StepResult
  | halt : Outcome → StepResult
deriving Repr, DecidableEq

/-- Write frame slot `i` of the frame designated by the current frame
pointer. -/
def writeFrameSlot (i v : Nat) (e : Engine) : Engine :=
  match e.detStack[e.fp]? with
  | some fr => { e with detStack := e.detStack.set e.fp { slots := fr.slots.set i v } }
  | none => e

/-- Modelled from the spec: one step of the dispatch loop — execute the
instruction at the current code address.  Control leaving the program, or
reaching `do_not_reached`, is a fatal invariant violation; `fail`/`redo`
against an empty nondeterministic stack is overall exhaustion; `stop` is
overall success. -/
def step (prog : List Instr) (e : Engine) : StepResult :=
  match prog[e.pc]? with
  | none => .halt .fatal
  | some i =>
    match i with
    | .mkcp r a => .next { pushChoicepoint r a e with pc := e.pc + 1 }
    | .alloc c => .next { heapAlloc c e with pc := e.pc + 1 }
    | .mutate a v => .next { bindCell a v e with pc := e.pc + 1 }
    | .setSuccip a => .next { e with succip := a, pc := e.pc + 1 }
    | .goto a => .next { e with pc := a }
    | .pushFrame n =>
        .next { e with detStack := e.detStack ++ [{ slots := List.replicate n 0 }],
                       fp := e.detStack.length, pc := e.pc + 1 }
    | .setSlot i v => .next { writeFrameSlot i v e with pc := e.pc + 1 }
    | .fail =>
        match doFail e with
        | .exhausted => .halt .exhausted
        | .resumed r => .next r
    | .redo =>
        match doRedo e with
        | .exhausted => .halt .exhausted
        | .resumed r => .next r
    | .succeed => .next (doSucceed e)
    | .resetHpFail t =>
        match doResetHpFail t e with
        | .exhausted => .halt .exhausted
        | .resumed r => .next r
    | .resetFramevar0Fail =>
        match doResetFramevar0Fail e with
        | .exhausted => .halt .exhausted
        | .resumed r => .next r
    | .stop => .halt .success
    | .notReached => .halt .fatal

/-- Emit a diagnostic line when the flag at `idx` is set. -/
def emit (flags : List Bool) (idx : Nat) (msg : String) : List String :=
  if flags.getD idx false then [msg] else []

/-- Modelled from the spec: the diagnostic text a step emits — each
subsystem's observation point is gated by its own flag, with the detail flag
adding extra verbosity.  Purely observational. -/
def diag (flags : List Bool) (prog : List Instr) (e : Engine) : List String :=
  (match prog[e.pc]? with
   | none => emit flags PROGFLAG "control left the program"
   | some i =>
     match i with
     | .mkcp _ _ => emit flags NONDSTACKFLAG "push choicepoint"
     | .alloc _ => emit flags HEAPFLAG "heap allocation"
     | .mutate _ _ => emit flags HEAPFLAG "destructive binding"
     | .setSuccip _ => emit flags SREGFLAG "set success continuation"
     | .goto _ => emit flags GOTOFLAG "direct jump"
     | .pushFrame _ => emit flags DETSTACKFLAG "push environment frame"
     | .setSlot _ _ => emit flags DETSTACKFLAG "write frame slot"
     | .fail => emit flags NONDSTACKFLAG "fail"
     | .redo => emit flags NONDSTACKFLAG "redo"
     | .succeed => emit flags CALLFLAG "succeed"
     | .resetHpFail _ => emit flags NONDSTACKFLAG "reset heap pointer and fail"
     | .resetFramevar0Fail => emit flags NONDSTACKFLAG "reset frame slot 0 and fail"
     | .stop => emit flags FINALFLAG "overall success"
     | .notReached => emit flags PROGFLAG "reached a not-reached label")
  ++ emit flags DETAILFLAG "register dump"

/-- Modelled from the spec: the fuelled dispatch loop.  Returns the terminal
outcome when one is reached within the fuel bound (`none` otherwise), the
engine state at the halt point (or where fuel ran out), and the diagnostic
text emitted along the way. -/
def run (prog : List Instr) (flags : List Bool) :
    Nat → Engine → Option Outcome × Engine × List String
  | 0, e => (none, e, [])
  | fuel + 1, e =>
    match step prog e with
    | .halt o => (some o, e, diag flags prog e)
    | .next e1 =>
      let r := run prog flags fuel e1
      (r.1, r.2.1, diag flags prog e ++ r.2.2)

/-- Modelled from the spec: `call_engine(entry)` transfers control to code
address `entry` on a freshly initialized engine and runs the dispatch loop
until a terminal state is reached, reporting which terminal state occurred. -/
def callEngine (prog : List Instr) (flags : List Bool) (fuel entry : Nat) :
    Option Outcome × Engine × List String :=
  run prog flags fuel (initEngine entry)

/-- The dispatch loop reaches terminal outcome `o` from state `e`: either the
next step halts with `o`, or it continues into a state that reaches `o`. -/
inductive Reaches (prog : List Instr) : Engine → Outcome → Prop where
  | halt : ∀ e o, step prog e = .halt o → Reaches prog e o
  | next : ∀ e e1 o, step prog e = .next e1 → Reaches prog e1 o → Reaches prog e o

/-! ## Helper lemmas -/

/-- Writing back to a list the value already stored at an index leaves the
list unchanged. -/
theorem set_getElem?_self {α : Type} (l : List α) (n : Nat) (a : α)
    (h : l[n]? = some a) : l.set n a = l := by
  have hn : n < l.length := by
    by_contra hge
    rw [List.getElem?_eq_none (by omega)] at h
    exact Option.noConfusion h
  have ha : l[n] = a := by
    rw [List.getElem?_eq_getElem hn] at h
    exact Option.some.inj h
  apply List.ext_getElem
  · simp
  · intro i h1 h2
    rw [List.getElem_set]
    split
    · next heq => subst heq; rw [← ha]
    · rfl

/-- A failure into a nonempty nondeterministic stack, written out. -/
theorem doFail_cons (e : Engine) (cp : Choicepoint) (rest : List Choicepoint)
    (h : e.nondStack = cp :: rest) :
    doFail e = .resumed
      { pc := cp.retryAddr, succip := e.succip, fp := cp.savedFp,
        heap := (((e.trail.drop cp.savedTrail).reverse).foldl undoEntry e.heap).take cp.savedHp,
        trail := e.trail.take cp.savedTrail,
        detStack := e.detStack,
        nondStack := rest } := by
  unfold doFail failUndoSequence
  rw [h]

/-- Mutations leave every engine component other than the heap and trail
unchanged. -/
theorem applyMut_fields (e : Engine) (op : MutOp) :
    (applyMut e op).pc = e.pc ∧ (applyMut e op).succip = e.succip ∧
    (applyMut e op).fp = e.fp ∧ (applyMut e op).detStack = e.detStack ∧
    (applyMut e op).nondStack = e.nondStack := by
  cases op with
  | alloc c => simp [applyMut, heapAlloc]
  | mutate a v =>
    simp only [applyMut, bindCell]
    cases e.heap[a]? <;> simp

/-- A mutation sequence leaves every engine component other than the heap and
trail unchanged. -/
theorem applyMuts_fields (ops : List MutOp) (e : Engine) :
    (applyMuts ops e).pc = e.pc ∧ (applyMuts ops e).succip = e.succip ∧
    (applyMuts ops e).fp = e.fp ∧ (applyMuts ops e).detStack = e.detStack ∧
    (applyMuts ops e).nondStack = e.nondStack := by
  induction ops generalizing e with
  | nil => simp [applyMuts]
  | cons op rest ih =>
    obtain ⟨a1, a2, a3, a4, a5⟩ := applyMut_fields e op
    obtain ⟨b1, b2, b3, b4, b5⟩ := ih (applyMut e op)
    simp only [applyMuts, List.foldl_cons] at b1 b2 b3 b4 b5 ⊢
    exact ⟨b1.trans a1, b2.trans a2, b3.trans a3, b4.trans a4, b5.trans a5⟩

/-- A mutation sequence only appends to the trail. -/
theorem applyMuts_trail_ext (ops : List MutOp) (e : Engine) :
    ∃ tl, (applyMuts ops e).trail = e.trail ++ tl := by
  induction ops generalizing e with
  | nil => exact ⟨[], by simp [applyMuts]⟩
  | cons op rest ih =>
    obtain ⟨tl1, h1⟩ := ih (applyMut e op)
    simp only [applyMuts, List.foldl_cons] at h1 ⊢
    cases op with
    | alloc c => exact ⟨tl1, by simpa [applyMut, heapAlloc] using h1⟩
    | mutate a v =>
      simp only [applyMut, bindCell] at h1 ⊢
      cases hh : e.heap[a]? with
      | none => rw [hh] at h1; exact ⟨tl1, h1⟩
      | some old =>
        rw [hh] at h1
        exact ⟨{ addr := a, oldVal := old } :: tl1, by simpa using h1⟩

/-- Undoing, newest first, exactly the trail entries a mutation sequence
created restores the heap contents that existed before the sequence ran
(up to the old heap pointer; cells allocated by the sequence lie above it). -/
theorem applyMuts_restore (ops : List MutOp) (e : Engine) :
    ((((applyMuts ops e).trail.drop e.trail.length).reverse).foldl undoEntry
        (applyMuts ops e).heap).take e.heap.length = e.heap := by
  induction ops generalizing e with
  | nil => simp [applyMuts]
  | cons op rest ih =>
    have hih := ih (applyMut e op)
    simp only [applyMuts, List.foldl_cons] at hih ⊢
    cases op with
    | alloc c =>
      have htr : (applyMut e (.alloc c)).trail = e.trail := by
        simp [applyMut, heapAlloc]
      have hhp : (applyMut e (.alloc c)).heap = e.heap ++ [c] := by
        simp [applyMut, heapAlloc]
      rw [htr, hhp] at hih
      have hlen : (e.heap ++ [c]).length = e.heap.length + 1 := by simp
      rw [hlen] at hih
      calc ((((List.foldl applyMut (applyMut e (.alloc c)) rest).trail.drop
                e.trail.length).reverse).foldl undoEntry
              (List.foldl applyMut (applyMut e (.alloc c)) rest).heap).take e.heap.length
          = (((((List.foldl applyMut (applyMut e (.alloc c)) rest).trail.drop
                e.trail.length).reverse).foldl undoEntry
              (List.foldl applyMut (applyMut e (.alloc c)) rest).heap).take
                (e.heap.length + 1)).take e.heap.length := by
            rw [List.take_take]; simp
        _ = (e.heap ++ [c]).take e.heap.length := by rw [hih]
        _ = e.heap := List.take_left ..
    | mutate a v =>
      cases hh : e.heap[a]? with
      | none =>
        have heq : applyMut e (.mutate a v) = e := by
          simp [applyMut, bindCell, hh]
        rw [heq] at hih ⊢
        exact hih
      | some old =>
        have htr : (applyMut e (.mutate a v)).trail
            = e.trail ++ [{ addr := a, oldVal := old }] := by
          simp [applyMut, bindCell, hh]
        have hhp : (applyMut e (.mutate a v)).heap = e.heap.set a v := by
          simp [applyMut, bindCell, hh]
        obtain ⟨tl, hs⟩ := applyMuts_trail_ext rest (applyMut e (.mutate a v))
        simp only [applyMuts] at hs
        rw [hs, htr]
        rw [hs, htr, hhp] at hih
        have hdrop1 : ((e.trail ++ [TrailEntry.mk a old] ++ tl).drop
            (e.trail ++ [TrailEntry.mk a old]).length) = tl :=
          List.drop_left ..
        have hdrop2 : ((e.trail ++ [TrailEntry.mk a old] ++ tl).drop
            e.trail.length) = TrailEntry.mk a old :: tl := by
          rw [List.append_assoc]
          rw [List.drop_left]
          rfl
        rw [hdrop1] at hih
        rw [hdrop2]
        have hlenset : (e.heap.set a v).length = e.heap.length := by simp
        rw [hlenset] at hih
        rw [List.reverse_cons, List.foldl_append]
        simp only [List.foldl_cons, List.foldl_nil, undoEntry]
        rw [List.set_take]
        rw [hih, List.set_set]
        exact set_getElem?_self e.heap a old hh

/-- Pushing a choicepoint, running any sequence of heap/trail mutations, and
then failing resumes at the retry address in exactly the pre-push state. -/
theorem doFail_applyMuts_push (e : Engine) (retry alts : Nat) (ops : List MutOp) :
    doFail (applyMuts ops (pushChoicepoint retry alts e))
      = .resumed { e with pc := retry } := by
  obtain ⟨hpc, hsuccip, hfp, hdet, hnond⟩ :=
    applyMuts_fields ops (pushChoicepoint retry alts e)
  have hcp : (applyMuts ops (pushChoicepoint retry alts e)).nondStack
      = { savedHp := e.heap.length, savedTrail := e.trail.length,
          savedFp := e.fp, retryAddr := retry, remainingAlts := alts }
        :: e.nondStack := by
    rw [hnond]; rfl
  rw [doFail_cons _ _ _ hcp]
  obtain ⟨tl, htl⟩ := applyMuts_trail_ext ops (pushChoicepoint retry alts e)
  have hptrail : (pushChoicepoint retry alts e).trail = e.trail := rfl
  have hpheap : (pushChoicepoint retry alts e).heap = e.heap := rfl
  have hrestore := applyMuts_restore ops (pushChoicepoint retry alts e)
  rw [hptrail, hpheap] at hrestore
  have htake : (applyMuts ops (pushChoicepoint retry alts e)).trail.take e.trail.length
      = e.trail := by
    rw [htl, hptrail]
    exact List.take_left ..
  simp only [FailOutcome.resumed.injEq]
  rw [Engine.mk.injEq]
  refine ⟨rfl, ?_, rfl, ?_, ?_, ?_, rfl⟩
  · rw [hsuccip]; rfl
  · exact hrestore
  · exact htake
  · rw [hdet]; rfl

/-! ## Claims -/

/-- C1: for every choicepoint push that is immediately followed by the `fail`
continuation with no intervening mutation of heap, trail, or stacks, `fail`
resumes at the retry address and the register state after it completes
(success continuation, frame pointer, heap pointer, trail pointer, and both
stack pointers) equals the exact register state captured before the push. -/
theorem claim_C1 (e : Engine) (retry alts : Nat) :
    ∃ r, doFail (pushChoicepoint retry alts e) = .resumed r ∧
      regFile r = regFile e ∧ r.pc = retry := by
  refine ⟨{ e with pc := retry }, ?_, rfl, rfl⟩
  exact doFail_applyMuts_push e retry alts []

/-- `do_redo` performs the same restoration as `do_fail`: a fail targeted at
the most recent live choicepoint. -/
theorem doRedo_eq_doFail (e : Engine) : doRedo e = doFail e := by
  unfold doRedo doFail
  cases e.nondStack <;> rfl

/-- C2: for every choicepoint C and any sequence of heap allocations and
destructive bindings performed after C was pushed, every way of failing back
to C — `fail`, `redo`, or either reset variant — undoes exactly the trail
entries created after C's saved trail pointer, in strict reverse creation
order (the undo sequence is the reverse of the entries above the saved
pointer), and no entry created before that pointer is modified (the trail
below the pointer survives unchanged, and every resumed state carries
exactly the pre-push trail); so the retried alternative observes exactly the
bindings that existed when C was created: `fail` and `redo` resume in the
exact pre-push state at the retry address, and the reset variants resume in
that same state modified only by their extra effect (the further heap rewind
to the target, or the frame-slot-0 clear). -/
theorem claim_C2 (e : Engine) (retry alts : Nat) (ops : List MutOp) :
    doFail (applyMuts ops (pushChoicepoint retry alts e))
        = .resumed { e with pc := retry } ∧
    doRedo (applyMuts ops (pushChoicepoint retry alts e))
        = .resumed { e with pc := retry } ∧
    (∀ target, doResetHpFail target (applyMuts ops (pushChoicepoint retry alts e))
        = .resumed { e with pc := retry, heap := e.heap.take target }) ∧
    doResetFramevar0Fail (applyMuts ops (pushChoicepoint retry alts e))
        = .resumed (clearFrameSlot0 { e with pc := retry }) ∧
    failUndoSequence (applyMuts ops (pushChoicepoint retry alts e))
        = ((applyMuts ops (pushChoicepoint retry alts e)).trail.drop
            e.trail.length).reverse ∧
    (applyMuts ops (pushChoicepoint retry alts e)).trail.take e.trail.length
        = e.trail := by
  obtain ⟨hpc, hsuccip, hfp, hdet, hnond⟩ :=
    applyMuts_fields ops (pushChoicepoint retry alts e)
  obtain ⟨tl, htl⟩ := applyMuts_trail_ext ops (pushChoicepoint retry alts e)
  have hcp : (applyMuts ops (pushChoicepoint retry alts e)).nondStack
      = { savedHp := e.heap.length, savedTrail := e.trail.length,
          savedFp := e.fp, retryAddr := retry, remainingAlts := alts }
        :: e.nondStack := by
    rw [hnond]; rfl
  have h1 := doFail_applyMuts_push e retry alts ops
  refine ⟨h1, ?_, ?_, ?_, ?_, ?_⟩
  · exact (doRedo_eq_doFail _).trans h1
  · intro target
    unfold doResetHpFail
    rw [h1]
  · unfold doResetFramevar0Fail
    rw [h1]
  · unfold failUndoSequence
    rw [hcp]
  · rw [htl]
    have : (pushChoicepoint retry alts e).trail = e.trail := rfl
    rw [this]
    exact List.take_left ..

/-- C3: for every choicepoint C, after failing back to C the heap pointer is
less than or equal to C's saved heap mark. -/
theorem claim_C3 (e : Engine) (cp : Choicepoint) (rest : List Choicepoint)
    (r : Engine) (hstack : e.nondStack = cp :: rest)
    (hfail : doFail e = .resumed r) :
    r.heap.length ≤ cp.savedHp := by
  rw [doFail_cons e cp rest hstack] at hfail
  have hr := FailOutcome.resumed.inj hfail
  rw [← hr]
  simp [List.length_take]

/-- Concrete engine state used to witness claims about failing into a live
choicepoint: one heap cell, an empty trail, one environment frame with one
slot holding 7, and one choicepoint whose snapshot covers the whole state. -/
def engW : Engine :=
  { pc := 3, succip := 0, fp := 0, heap := [Cell.unbound], trail := [],
    detStack := [{ slots := [7] }],
    nondStack := [{ savedHp := 1, savedTrail := 0, savedFp := 0,
                    retryAddr := 9, remainingAlts := 1 }] }

/-- Witness for C3: a concrete failure into a live choicepoint, with the
restored heap pointer within the saved mark. -/
theorem claim_C3_witness :
    engW.nondStack
      = { savedHp := 1, savedTrail := 0, savedFp := 0,
          retryAddr := 9, remainingAlts := 1 } :: [] ∧
    doFail engW = .resumed
      { pc := 9, succip := 0, fp := 0, heap := [Cell.unbound], trail := [],
        detStack := [{ slots := [7] }], nondStack := [] } ∧
    ({ pc := 9, succip := 0, fp := 0, heap := [Cell.unbound], trail := [],
       detStack := [{ slots := [7] }], nondStack := [] } : Engine).heap.length ≤ 1 :=
  ⟨rfl, by decide,
   claim_C3 engW
     { savedHp := 1, savedTrail := 0, savedFp := 0,
       retryAddr := 9, remainingAlts := 1 } []
     { pc := 9, succip := 0, fp := 0, heap := [Cell.unbound], trail := [],
       detStack := [{ slots := [7] }], nondStack := [] }
     rfl (by decide)⟩

/-- C4: for every engine state in which the nondeterministic stack is empty,
the `redo` continuation and the `fail` continuation both yield the same
terminal outcome: overall exhaustion. -/
theorem claim_C4 (e : Engine) (h : e.nondStack = []) :
    doRedo e = .exhausted ∧ doFail e = .exhausted := by
  unfold doRedo doFail
  rw [h]
  exact ⟨rfl, rfl⟩

/-- Witness for C4: `redo` and `fail` on a freshly initialized engine, whose
nondeterministic stack is empty, both report exhaustion. -/
theorem claim_C4_witness :
    (initEngine 0).nondStack = [] ∧
    (doRedo (initEngine 0) = .exhausted ∧ doFail (initEngine 0) = .exhausted) :=
  ⟨rfl, claim_C4 (initEngine 0) rfl⟩

/-- Clearing frame slot 0 touches only the deterministic stack. -/
theorem clearFrameSlot0_fields (e : Engine) :
    (clearFrameSlot0 e).pc = e.pc ∧ (clearFrameSlot0 e).succip = e.succip ∧
    (clearFrameSlot0 e).fp = e.fp ∧ (clearFrameSlot0 e).heap = e.heap ∧
    (clearFrameSlot0 e).trail = e.trail ∧
    (clearFrameSlot0 e).nondStack = e.nondStack := by
  unfold clearFrameSlot0
  cases e.detStack[e.fp]? <;> simp

/-- After clearing, frame slot 0 of the current frame reads as 0, provided
the current frame exists and has a slot 0. -/
theorem readFrameSlot0_clear (e : Engine) (fr : Frame)
    (h : e.detStack[e.fp]? = some fr) (hslot : 0 < fr.slots.length) :
    readFrameSlot0 (clearFrameSlot0 e) = some 0 := by
  have hlt : e.fp < e.detStack.length := by
    rw [List.getElem?_eq_some] at h
    exact h.1
  unfold clearFrameSlot0
  rw [h]
  unfold readFrameSlot0
  simp only
  rw [List.getElem?_set_self hlt]
  show (({ slots := fr.slots.set 0 0 } : Frame).slots)[0]? = some 0
  exact List.getElem?_set_self hslot

/-- C6: for every choicepoint C (with a live frame at C's saved frame
pointer), taking the `reset_framevar0_fail` continuation performs the
standard fail restoration to C and additionally clears frame slot 0, so slot
0 reads as cleared (0) when control arrives at C's retry address; plain
`fail` to the same choicepoint leaves the deterministic stack — and hence
frame slot 0, which still reads its original value — unchanged.  Apart from
the frame-slot write, the two continuations restore identical state. -/
theorem claim_C6 (e : Engine) (cp : Choicepoint) (rest : List Choicepoint)
    (fr : Frame) (r1 : Engine) (hstack : e.nondStack = cp :: rest)
    (hfail : doFail e = .resumed r1)
    (hframe : e.detStack[cp.savedFp]? = some fr)
    (hslot : 0 < fr.slots.length) :
    ∃ r2, doResetFramevar0Fail e = .resumed r2 ∧
      readFrameSlot0 r2 = some 0 ∧
      r1.detStack = e.detStack ∧ r1.fp = cp.savedFp ∧
      readFrameSlot0 r1 = fr.slots[0]? ∧
      r2.pc = r1.pc ∧ r2.succip = r1.succip ∧ r2.fp = r1.fp ∧
      r2.heap = r1.heap ∧ r2.trail = r1.trail ∧
      r2.nondStack = r1.nondStack := by
  have h1 := doFail_cons e cp rest hstack
  rw [hfail] at h1
  have hr1 := FailOutcome.resumed.inj h1
  have hdet : r1.detStack = e.detStack := by rw [hr1]
  have hfp : r1.fp = cp.savedFp := by rw [hr1]
  have hframe1 : r1.detStack[r1.fp]? = some fr := by
    rw [hdet, hfp]
    exact hframe
  obtain ⟨f1, f2, f3, f4, f5, f6⟩ := clearFrameSlot0_fields r1
  refine ⟨clearFrameSlot0 r1, ?_, ?_, hdet, hfp, ?_, f1, f2, f3, f4, f5, f6⟩
  · unfold doResetFramevar0Fail
    rw [hfail]
  · exact readFrameSlot0_clear r1 fr hframe1 hslot
  · unfold readFrameSlot0
    rw [hframe1]
    rfl

/-- The state plain `fail` resumes in from the concrete state `engW`. -/
def engWFailed : Engine :=
  { pc := 9, succip := 0, fp := 0, heap := [Cell.unbound], trail := [],
    detStack := [{ slots := [7] }], nondStack := [] }

/-- Witness for C6: on the concrete state `engW`, whose one frame slot holds
7, `reset_framevar0_fail` resumes with slot 0 reading 0 while plain `fail`
resumes with it still reading 7. -/
theorem claim_C6_witness :
    engW.nondStack
      = { savedHp := 1, savedTrail := 0, savedFp := 0,
          retryAddr := 9, remainingAlts := 1 } :: [] ∧
    doFail engW = .resumed engWFailed ∧
    engW.detStack[(0 : Nat)]? = some { slots := [7] } ∧
    0 < ({ slots := [7] } : Frame).slots.length ∧
    (∃ r2, doResetFramevar0Fail engW = .resumed r2 ∧
      readFrameSlot0 r2 = some 0 ∧
      engWFailed.detStack = engW.detStack ∧ engWFailed.fp = 0 ∧
      readFrameSlot0 engWFailed = ({ slots := [7] } : Frame).slots[(0 : Nat)]? ∧
      r2.pc = engWFailed.pc ∧ r2.succip = engWFailed.succip ∧
      r2.fp = engWFailed.fp ∧ r2.heap = engWFailed.heap ∧
      r2.trail = engWFailed.trail ∧ r2.nondStack = engWFailed.nondStack) :=
  ⟨rfl, by decide, rfl, by decide,
   claim_C6 engW
     { savedHp := 1, savedTrail := 0, savedFp := 0,
       retryAddr := 9, remainingAlts := 1 } [] { slots := [7] } engWFailed
     rfl (by decide) rfl (by decide)⟩

/-- C7: for every choicepoint C and rewind target below C's stored heap
mark, taking the `reset_hp_fail` continuation performs exactly the standard
fail restoration to C plus one additional effect: the heap is rewound to the
target, so the resulting heap pointer lies below C's stored mark; every
other restored component (code address, success continuation, frame pointer,
trail, both stacks) equals what plain `fail` to C produces. -/
theorem claim_C7 (e : Engine) (cp : Choicepoint) (rest : List Choicepoint)
    (target : Nat) (r1 : Engine) (_hstack : e.nondStack = cp :: rest)
    (hfail : doFail e = .resumed r1) (htarget : target < cp.savedHp) :
    ∃ r2, doResetHpFail target e = .resumed r2 ∧
      r2.heap = r1.heap.take target ∧ r2.heap.length < cp.savedHp ∧
      r2.pc = r1.pc ∧ r2.succip = r1.succip ∧ r2.fp = r1.fp ∧
      r2.trail = r1.trail ∧ r2.detStack = r1.detStack ∧
      r2.nondStack = r1.nondStack := by
  refine ⟨{ r1 with heap := r1.heap.take target }, ?_, rfl, ?_,
          rfl, rfl, rfl, rfl, rfl, rfl⟩
  · unfold doResetHpFail
    rw [hfail]
  · simp only [List.length_take]
    omega

/-- Witness for C7: on the concrete state `engW` (saved heap mark 1) with
rewind target 0, `reset_hp_fail` resumes with an empty heap, below the mark,
and otherwise matches plain `fail`. -/
theorem claim_C7_witness :
    engW.nondStack
      = { savedHp := 1, savedTrail := 0, savedFp := 0,
          retryAddr := 9, remainingAlts := 1 } :: [] ∧
    doFail engW = .resumed engWFailed ∧
    (0 : Nat) < 1 ∧
    (∃ r2, doResetHpFail 0 engW = .resumed r2 ∧
      r2.heap = engWFailed.heap.take 0 ∧ r2.heap.length < 1 ∧
      r2.pc = engWFailed.pc ∧ r2.succip = engWFailed.succip ∧
      r2.fp = engWFailed.fp ∧ r2.trail = engWFailed.trail ∧
      r2.detStack = engWFailed.detStack ∧
      r2.nondStack = engWFailed.nondStack) :=
  ⟨rfl, by decide, by decide,
   claim_C7 engW
     { savedHp := 1, savedTrail := 0, savedFp := 0,
       retryAddr := 9, remainingAlts := 1 } [] 0 engWFailed
     rfl (by decide) (by decide)⟩

/-- C8: for every engine state whose current instruction is `succeed`, the
dispatch step transfers control to the success continuation and leaves the
heap, trail, both stacks, the frame pointer and the success continuation
itself unchanged — no stack or heap rewind happens. -/
theorem claim_C8 (prog : List Instr) (e : Engine)
    (h : prog[e.pc]? = some .succeed) :
    ∃ r, step prog e = .next r ∧ r.pc = e.succip ∧ r.succip = e.succip ∧
      r.fp = e.fp ∧ r.heap = e.heap ∧ r.trail = e.trail ∧
      r.detStack = e.detStack ∧ r.nondStack = e.nondStack := by
  refine ⟨doSucceed e, ?_, rfl, rfl, rfl, rfl, rfl, rfl, rfl⟩
  unfold step
  rw [h]

/-- Witness for C8: a one-instruction program holding `succeed`, run from a
fresh engine whose success continuation is address 0. -/
theorem claim_C8_witness :
    ([Instr.succeed])[(initEngine 0).pc]? = some Instr.succeed ∧
    (∃ r, step [Instr.succeed] (initEngine 0) = .next r ∧
      r.pc = (initEngine 0).succip ∧ r.succip = (initEngine 0).succip ∧
      r.fp = (initEngine 0).fp ∧ r.heap = (initEngine 0).heap ∧
      r.trail = (initEngine 0).trail ∧
      r.detStack = (initEngine 0).detStack ∧
      r.nondStack = (initEngine 0).nondStack) :=
  ⟨rfl, claim_C8 [Instr.succeed] (initEngine 0) rfl⟩

/-- The dispatch loop's outcome and final engine state do not depend on the
debug flags: the flags gate only the diagnostic text component. -/
theorem run_flag_indep (prog : List Instr) (f1 f2 : List Bool) (fuel : Nat)
    (e : Engine) :
    (run prog f1 fuel e).1 = (run prog f2 fuel e).1 ∧
    (run prog f1 fuel e).2.1 = (run prog f2 fuel e).2.1 := by
  induction fuel generalizing e with
  | zero => exact ⟨rfl, rfl⟩
  | succ n ih =>
    simp only [run]
    cases hs : step prog e with
    | halt o => exact ⟨rfl, rfl⟩
    | next e1 =>
      obtain ⟨h1, h2⟩ := ih e1
      exact ⟨h1, h2⟩

/-- C5: for every program, every starting state, every fuel bound and every
pair of debug-flag assignments, the two runs yield the same terminal outcome
(success, exhaustion, fatal, or still running) and the same final heap and
trail contents; the flags influence only the diagnostic text emitted. -/
theorem claim_C5 (prog : List Instr) (f1 f2 : List Bool) (fuel : Nat)
    (e : Engine) :
    (run prog f1 fuel e).1 = (run prog f2 fuel e).1 ∧
    (run prog f1 fuel e).2.1.heap = (run prog f2 fuel e).2.1.heap ∧
    (run prog f1 fuel e).2.1.trail = (run prog f2 fuel e).2.1.trail := by
  obtain ⟨h1, h2⟩ := run_flag_indep prog f1 f2 fuel e
  exact ⟨h1, by rw [h2], by rw [h2]⟩

/-- A `fail` that reports exhaustion had an empty nondeterministic stack. -/
theorem doFail_exhausted_nond (e : Engine) (h : doFail e = .exhausted) :
    e.nondStack = [] := by
  cases hn : e.nondStack with
  | nil => rfl
  | cons cp rest =>
    rw [doFail_cons e cp rest hn] at h
    exact FailOutcome.noConfusion h

/-- A `redo` that reports exhaustion had an empty nondeterministic stack. -/
theorem doRedo_exhausted_nond (e : Engine) (h : doRedo e = .exhausted) :
    e.nondStack = [] := by
  cases hn : e.nondStack with
  | nil => rfl
  | cons cp rest =>
    unfold doRedo at h
    rw [hn] at h
    exact FailOutcome.noConfusion h

/-- A `reset_hp_fail` that reports exhaustion had an empty nondeterministic
stack. -/
theorem doResetHpFail_exhausted_nond (t : Nat) (e : Engine)
    (h : doResetHpFail t e = .exhausted) : e.nondStack = [] := by
  unfold doResetHpFail at h
  cases hf : doFail e with
  | exhausted => exact doFail_exhausted_nond e hf
  | resumed r =>
    rw [hf] at h
    exact FailOutcome.noConfusion h

/-- A `reset_framevar0_fail` that reports exhaustion had an empty
nondeterministic stack. -/
theorem doResetFramevar0Fail_exhausted_nond (e : Engine)
    (h : doResetFramevar0Fail e = .exhausted) : e.nondStack = [] := by
  unfold doResetFramevar0Fail at h
  cases hf : doFail e with
  | exhausted => exact doFail_exhausted_nond e hf
  | resumed r =>
    rw [hf] at h
    exact FailOutcome.noConfusion h

/-- A dispatch step that halts with exhaustion was a failure-family
instruction against an empty nondeterministic stack. -/
theorem step_halt_exhausted (prog : List Instr) (e : Engine)
    (h : step prog e = .halt .exhausted) : e.nondStack = [] := by
  unfold step at h
  cases hinstr : prog[e.pc]? with
  | none =>
    rw [hinstr] at h
    exact absurd (StepResult.halt.inj h) (by decide)
  | some i =>
    rw [hinstr] at h
    cases i with
    | fail =>
      cases hf : doFail e with
      | exhausted => exact doFail_exhausted_nond e hf
      | resumed r =>
        rw [hf] at h
        exact StepResult.noConfusion h
    | redo =>
      cases hf : doRedo e with
      | exhausted => exact doRedo_exhausted_nond e hf
      | resumed r =>
        rw [hf] at h
        exact StepResult.noConfusion h
    | resetHpFail t =>
      have h2 : (match doResetHpFail t e with
          | FailOutcome.exhausted => StepResult.halt Outcome.exhausted
          | FailOutcome.resumed r => StepResult.next r)
          = StepResult.halt Outcome.exhausted := h
      cases hf : doResetHpFail t e with
      | exhausted => exact doResetHpFail_exhausted_nond t e hf
      | resumed r =>
        rw [hf] at h2
        exact StepResult.noConfusion h2
    | resetFramevar0Fail =>
      have h2 : (match doResetFramevar0Fail e with
          | FailOutcome.exhausted => StepResult.halt Outcome.exhausted
          | FailOutcome.resumed r => StepResult.next r)
          = StepResult.halt Outcome.exhausted := h
      cases hf : doResetFramevar0Fail e with
      | exhausted => exact doResetFramevar0Fail_exhausted_nond e hf
      | resumed r =>
        rw [hf] at h2
        exact StepResult.noConfusion h2
    | stop => exact absurd (StepResult.halt.inj h) (by decide)
    | notReached => exact absurd (StepResult.halt.inj h) (by decide)
    | mkcp r a => exact StepResult.noConfusion h
    | alloc c => exact StepResult.noConfusion h
    | mutate a v => exact StepResult.noConfusion h
    | setSuccip a => exact StepResult.noConfusion h
    | goto a => exact StepResult.noConfusion h
    | pushFrame n => exact StepResult.noConfusion h
    | setSlot i v => exact StepResult.noConfusion h
    | succeed => exact StepResult.noConfusion h

/-- When the fuelled loop reports an outcome, the step relation really
reaches that terminal outcome. -/
theorem run_sound (prog : List Instr) (flags : List Bool) (fuel : Nat)
    (e : Engine) (o : Outcome) (h : (run prog flags fuel e).1 = some o) :
    Reaches prog e o := by
  induction fuel generalizing e with
  | zero => exact Option.noConfusion h
  | succ n ih =>
    simp only [run] at h
    cases hs : step prog e with
    | halt o2 =>
      rw [hs] at h
      have : o2 = o := Option.some.inj h
      exact Reaches.halt e o (this ▸ hs)
    | next e1 =>
      rw [hs] at h
      exact Reaches.next e e1 o hs (ih e1 h)

/-- When the fuelled loop reports exhaustion, the engine state at the halt
point has an empty nondeterministic stack. -/
theorem run_exhausted_empty (prog : List Instr) (flags : List Bool)
    (fuel : Nat) (e : Engine)
    (h : (run prog flags fuel e).1 = some .exhausted) :
    (run prog flags fuel e).2.1.nondStack = [] := by
  induction fuel generalizing e with
  | zero => exact Option.noConfusion h
  | succ n ih =>
    simp only [run] at h ⊢
    cases hs : step prog e with
    | halt o2 =>
      rw [hs] at h
      have ho : o2 = Outcome.exhausted := Option.some.inj h
      exact step_halt_exhausted prog e (ho ▸ hs)
    | next e1 =>
      rw [hs] at h
      exact ih e1 h

/-- The step relation reaches at most one terminal outcome. -/
theorem reaches_det (prog : List Instr) (e : Engine) (o1 o2 : Outcome)
    (h1 : Reaches prog e o1) (h2 : Reaches prog e o2) : o1 = o2 := by
  revert h2
  induction h1 with
  | halt e o hstep =>
    intro h2
    cases h2 with
    | halt _ _ hstep2 => exact StepResult.halt.inj (hstep.symm.trans hstep2)
    | next _ e1 _ hstep2 hr2 =>
      exact StepResult.noConfusion (hstep.symm.trans hstep2)
  | next e e1 o hstep hr ih =>
    intro h2
    cases h2 with
    | halt _ _ hstep2 =>
      exact StepResult.noConfusion (hstep.symm.trans hstep2)
    | next _ e2 _ hstep2 hr2 =>
      have he : e1 = e2 := StepResult.next.inj (hstep.symm.trans hstep2)
      exact ih (he ▸ hr2)

/-- C9: whenever `call_engine` reports a terminal outcome for an entry point,
that outcome is genuinely reached by the dispatch loop from the freshly
initialized engine at that entry; it is the only outcome reachable from
there (the three terminal states — success, exhaustion, fatal invariant
violation — are mutually exclusive); and a report of overall failure means
the nondeterministic stack was exhausted at the halt point. -/
theorem claim_C9 (prog : List Instr) (flags : List Bool) (fuel entry : Nat)
    (o : Outcome) (h : (callEngine prog flags fuel entry).1 = some o) :
    Reaches prog (initEngine entry) o ∧
    (∀ o2, Reaches prog (initEngine entry) o2 → o2 = o) ∧
    (o = .exhausted →
      (callEngine prog flags fuel entry).2.1.nondStack = []) := by
  refine ⟨run_sound prog flags fuel (initEngine entry) o h, ?_, ?_⟩
  · intro o2 h2
    exact reaches_det prog (initEngine entry) o2 o h2
      (run_sound prog flags fuel (initEngine entry) o h)
  · intro ho
    exact run_exhausted_empty prog flags fuel (initEngine entry) (ho ▸ h)

/-- Witness for C9: a one-instruction program whose entry instruction is the
overall-success terminal; `call_engine` reports success, which is reached
and unique. -/
theorem claim_C9_witness :
    (callEngine [Instr.stop] [] 1 0).1 = some Outcome.success ∧
    (Reaches [Instr.stop] (initEngine 0) Outcome.success ∧
     (∀ o2, Reaches [Instr.stop] (initEngine 0) o2 → o2 = Outcome.success) ∧
     (Outcome.success = Outcome.exhausted →
       (callEngine [Instr.stop] [] 1 0).2.1.nondStack = [])) :=
  ⟨rfl, claim_C9 [Instr.stop] [] 1 0 Outcome.success rfl⟩

/-- C10: the debug-flag array is indexed by exactly ten distinct consecutive
indices 0 through 9, one per named subsystem flag, with the detail flag
(DETAILFLAG = 9) as the last real flag and the array bound MAXFLAG = 10
equal to the flag count; every named flag macro, `progdebug` through
`detaildebug`, reads a distinct element of the same debugflag array. -/
theorem claim_C10 :
    flagIndices = List.range MAXFLAG ∧
    flagIndices.Nodup ∧
    flagIndices.length = MAXFLAG ∧
    DETAILFLAG = 9 ∧ DETAILFLAG + 1 = MAXFLAG ∧ MAXFLAG = 10 ∧
    progdebug = (fun debugflag => debugflag 0) ∧
    gotodebug = (fun debugflag => debugflag 1) ∧
    calldebug = (fun debugflag => debugflag 2) ∧
    heapdebug = (fun debugflag => debugflag 3) ∧
    detstackdebug = (fun debugflag => debugflag 4) ∧
    nondstackdebug = (fun debugflag => debugflag 5) ∧
    finaldebug = (fun debugflag => debugflag 6) ∧
    memdebug = (fun debugflag => debugflag 7) ∧
    sregdebug = (fun debugflag => debugflag 8) ∧
    detaildebug = (fun debugflag => debugflag 9) :=
  ⟨by decide, by decide, by decide, rfl, rfl, rfl,
   rfl, rfl, rfl, rfl, rfl, rfl, rfl, rfl, rfl, rfl⟩
